import Mathlib

/-!
Verification of the Holochain gossip reconciliation engine.

This file gives a shallow embedding, in Lean, of the parts of the
repository that the checked properties are about:

* the naive full-sync gossip round driver
  (`crates/kitsune_p2p/kitsune_p2p/src/spawn/actor/gossip.rs`),
* the sharded gossip accept / agent-diff handlers
  (`crates/kitsune_p2p/kitsune_p2p/src/gossip/sharded_gossip/{accept,agents}.rs`),
* the content-addressed store buffer (`crates/state/src/buffer/cas.rs`),
* the wire message codec surface (`crates/holochain_p2p/src/types/wire.rs`),
* the arc/sharding model (its implementation lives in the
  `kitsune_p2p_types::dht_arc` crate, outside the given sources, so it is
  modelled from the specification).

Opaque identifiers (agents, op hashes, certificates, space locations) are
modelled as natural numbers; hash sets of the source become `Finset ℕ`.
-/

namespace Holochain

/-! ## Naive full-sync gossip round driver (`spawn/actor/gossip.rs`)

`GossipData::process_next_gossip` fetches the op-hash sets of the two
agents of a pending gossip pair into `HashSet`s, computes the two set
differences, and pushes each difference to the side that lacks it via the
`gossip_ops` host event.  Op-hash `HashSet`s are embedded as `Finset ℕ`. -/

/-- Ops that `to_agent` has and `from_agent` needs:
`op_hashes_to.difference(&op_hashes_from)` in `process_next_gossip`. -/
def fromNeeds (op_hashes_from op_hashes_to : Finset ℕ) : Finset ℕ :=
  op_hashes_to \ op_hashes_from

/-- Ops that `from_agent` has and `to_agent` needs:
`op_hashes_from.difference(&op_hashes_to)` in `process_next_gossip`. -/
def toNeeds (op_hashes_from op_hashes_to : Finset ℕ) : Finset ℕ :=
  op_hashes_from \ op_hashes_to

/-- Modelled from the spec: the `gossip_ops` host-event handler (the
consumer of `GossipEvt`, outside the given sources) merges the pushed ops
into the recipient's store; per §5 the store merge is an idempotent,
additive set union. -/
def gossipOpsMerge (store pushed : Finset ℕ) : Finset ℕ :=
  store ∪ pushed

/-- One full round of `GossipData::process_next_gossip` on the op-hash
universes of the two sides: each side receives exactly what the other side
has and it lacks.  (The source skips the `gossip_ops` call when the
difference is empty; merging the empty set is the same store.) -/
def processNextGossip (op_hashes_from op_hashes_to : Finset ℕ) :
    Finset ℕ × Finset ℕ :=
  (gossipOpsMerge op_hashes_from (fromNeeds op_hashes_from op_hashes_to),
   gossipOpsMerge op_hashes_to (toNeeds op_hashes_from op_hashes_to))

/-! ## Arc / sharding model

The arc implementation lives in the `kitsune_p2p_types::dht_arc` crate,
which is not among the given sources; it is modelled from the
specification (§3 Arc, §4.1 contract). -/

/-- Modelled from the spec: size of the circular key space (`0..2^32`). -/
def keySpaceSize : ℕ := 2 ^ 32

/-- Modelled from the spec: circular subtraction `(a - b) mod keySpaceSize`,
total on naturals. -/
def circSub (a b : ℕ) : ℕ :=
  (a % keySpaceSize + keySpaceSize - b % keySpaceSize) % keySpaceSize

/-- Modelled from the spec: circular distance between two key-space
locations, the shorter way around the circle. -/
def circDist (a b : ℕ) : ℕ :=
  min (circSub a b) (circSub b a)

/-- Modelled from the spec: an arc `(center_point, half_length)` over the
circular key space; `half_length = 0` claims nothing, full length claims
everything. -/
structure DhtArc where
  center : ℕ
  halfLen : ℕ
  deriving DecidableEq

/-- Modelled from the spec: an arc covers the locations within its
half-length of its center. -/
def DhtArc.containsLoc (arc : DhtArc) (p : ℕ) : Bool :=
  decide (circDist arc.center p < arc.halfLen)

/-- Modelled from the spec: an `ArcSet` is a (possibly non-contiguous)
set of key-space locations, represented by its membership function. -/
def ArcSet : Type := ℕ → Bool

/-- The empty arc set: no location is a member. -/
def ArcSet.empty : ArcSet := fun _ => false

/-- Membership in an arc set. -/
def ArcSet.containsLoc (s : ArcSet) (p : ℕ) : Bool := s p

/-- Modelled from the spec: `intersect(arcA, arcB) -> ArcSet`, the set of
locations covered by both arcs of the circular key space. -/
def intersect (a b : DhtArc) : ArcSet :=
  fun p => a.containsLoc p && b.containsLoc p

/-! ## Sharded gossip (`gossip/sharded_gossip/{accept,agents}.rs`)

The module root of `sharded_gossip` (defining `RoundState`, the inner
shared state, `generate_blooms` and the wire enum) is not among the given
sources; those parts are modelled from the specification, while the
handler bodies below follow `accept.rs` and `agents.rs`. -/

/-- A signed agent-info record.  Modelled from the spec (§3 AgentInfo):
`agent` and `signed_at_ms` are the fields read by `incoming_agents`
(`MetaOpKey::Agent(info.agent, info.signed_at_ms)`), and `loc` is the
key-space basis of the record used for arc filtering. -/
structure AgentInfoSigned where
  agent : ℕ
  signedAtMs : ℕ
  loc : ℕ
  deriving DecidableEq

/-- Bloom filter keys, as used in `incoming_agents`: agent entries are
keyed by `(agent, signed_at_ms)`; op entries (modelled from the spec) by
the op hash. -/
inductive MetaOpKey where
  | agent (a : ℕ) (signedAt : ℕ)
  | op (hash : ℕ)
  deriving DecidableEq

/-- A bloom filter is embedded by its membership oracle `check`; the
probabilistic implementation lives outside the given sources, and the
handlers only call `check`. -/
def BloomFilter : Type := MetaOpKey → Bool

/-- `remote_bloom.check(key)`. -/
def BloomFilter.check (b : BloomFilter) (k : MetaOpKey) : Bool := b k

/-- Modelled from the spec (§3 RoundState; the defining module root is
not among the given sources): per-remote-peer round record with the
fields the claims touch — the round's common arc set and its start
timestamp. -/
structure RoundState where
  commonArcSet : ArcSet
  startedAt : ℕ

/-- The sharded gossip wire variants produced by the handlers under
scrutiny (`ShardedGossipWire::no_agents()` / `missing_agents(..)`). -/
inductive ShardedGossipWire where
  | noAgents
  | missingAgents (agents : List AgentInfoSigned)

/-- The inner shared state of `ShardedGossip` as used by
`incoming_accept`: the set of local agents, the per-space map from
peer certificate to `RoundState` (an association list keyed by
certificate, mirroring the `HashMap`), and the outgoing queue of
`(peer_cert, gossip message)` pairs.  Certificates and queued gossip
messages are opaque naturals. -/
structure ShardedGossipState where
  localAgents : Finset ℕ
  stateMap : List (ℕ × RoundState)
  outgoing : List (ℕ × ℕ)

/-- `HashMap::insert` on the certificate-keyed state map: the new
binding replaces any existing binding for the same certificate. -/
def insertRound (m : List (ℕ × RoundState)) (cert : ℕ) (s : RoundState) :
    List (ℕ × RoundState) :=
  (cert, s) :: m.filter (fun e => e.1 != cert)

/-- Lookup in the certificate-keyed state map. -/
def lookupRound (m : List (ℕ × RoundState)) (cert : ℕ) : Option RoundState :=
  (m.find? (fun e => e.1 == cert)).map (fun e => e.2)

/-- Number of live rounds recorded for a certificate. -/
def certCount (m : List (ℕ × RoundState)) (cert : ℕ) : ℕ :=
  (m.filter (fun e => e.1 == cert)).length

/-- `ShardedGossip::incoming_accept` (`accept.rs`): if there is no local
agent the call returns success immediately with no effect; otherwise the
generated round state is inserted into the state map under the sender's
peer certificate (unconditionally overwriting any existing round — the
source has no timestamp comparison, only `state_map.insert`) and the
generated gossip messages are queued.  The bloom/state generation
(`generate_blooms`, defined in the missing module root) is passed in by
its result. -/
def incomingAccept (st : ShardedGossipState) (peerCert : ℕ)
    (generated : RoundState × List ℕ) : ShardedGossipState :=
  if st.localAgents = ∅ then st
  else
    { st with
      stateMap := insertRound st.stateMap peerCert generated.1
      outgoing := st.outgoing ++ generated.2.map (fun g => (peerCert, g)) }

/-- A sequence of incoming accepts, each carrying the peer certificate
and the generated `(RoundState, gossip)` pair, handled in order. -/
def applyAccepts (init : ShardedGossipState)
    (events : List (ℕ × RoundState × List ℕ)) : ShardedGossipState :=
  events.foldl (fun s e => incomingAccept s e.1 e.2) init

/-- Modelled from the spec (§4.3; the `store` module is not among the
given sources): `store::agent_info_within_arc_set` returns the locally
known agent-info records whose key-space basis lies inside the arc
set. -/
def agentInfoWithinArcSet (infos : List AgentInfoSigned) (arcSet : ArcSet) :
    List AgentInfoSigned :=
  infos.filter (fun i => ArcSet.containsLoc arcSet i.loc)

/-- `ShardedGossipLocal::incoming_agents` (`agents.rs`): with no local
agent reply `NoAgents`; otherwise collect the local agent infos within
the round's common arc set that the remote bloom reports absent, and
reply `MissingAgents` with them when there are any (no message at all
otherwise — rounds are ended by ops, not agents).  The node's locally
known agent infos (`infos`) stand for the store's contents.  The local
variable `missing` of the source is the named helper `missingAgentsOf`:
the agent infos within the arc set that the remote bloom reports
absent. -/
def missingAgentsOf (infos : List AgentInfoSigned) (arcSet : ArcSet)
    (remoteBloom : BloomFilter) : List AgentInfoSigned :=
  (agentInfoWithinArcSet infos arcSet).filter
    (fun info =>
      !(BloomFilter.check remoteBloom
        (MetaOpKey.agent info.agent info.signedAtMs)))

/-- `ShardedGossipLocal::incoming_agents` (`agents.rs`), see
`missingAgentsOf`. -/
def incomingAgents (localAgents : Finset ℕ) (infos : List AgentInfoSigned)
    (state : RoundState) (remoteBloom : BloomFilter) :
    List ShardedGossipWire :=
  if localAgents = ∅ then [ShardedGossipWire.noAgents]
  else if (missingAgentsOf infos state.commonArcSet remoteBloom).isEmpty then []
  else
    [ShardedGossipWire.missingAgents
      (missingAgentsOf infos state.commonArcSet remoteBloom)]

/-- The agent-info records carried by `MissingAgents` messages in a
reply. -/
def sentMissingAgents : List ShardedGossipWire → List AgentInfoSigned
  | [] => []
  | ShardedGossipWire.missingAgents l :: rest => l ++ sentMissingAgents rest
  | ShardedGossipWire.noAgents :: rest => sentMissingAgents rest

/-- Modelled from the spec (the `store` module is not among the given
sources): `store::agents_within_arcset` returns the `(agent, location)`
pairs of locally known agents whose location lies inside the arc set.
The node's knowledge is the list `storeAgents`. -/
def agentsWithinArcset (storeAgents : List (ℕ × ℕ)) (arcSet : ArcSet) :
    List (ℕ × ℕ) :=
  storeAgents.filter (fun al => ArcSet.containsLoc arcSet al.2)

/-- Per-destination-agent peer stores of agent-info records. -/
def AgentStores : Type := ℕ → List AgentInfoSigned

/-- Modelled from the spec (§4.5 `store_agent_info`): `store::put_agent_info`
merges the incoming agent infos into the peer store of every destination
agent. -/
def putAgentInfo (stores : AgentStores) (dests : Finset ℕ)
    (incoming : List AgentInfoSigned) : AgentStores :=
  fun a => if a ∈ dests then stores a ++ incoming else stores a

/-- `ShardedGossipLocal::incoming_missing_agents` (`agents.rs`): with no
local agent, do nothing; otherwise store the received agent infos under
the destination agents that are reported within the round's common arc
set and are members of the node's `local_agents`.  The source's
`agents_within_common_arc` `HashSet` is the named helper
`destinationAgents`. -/
def destinationAgents (localAgents : Finset ℕ) (storeAgents : List (ℕ × ℕ))
    (arcSet : ArcSet) : Finset ℕ :=
  (((agentsWithinArcset storeAgents arcSet).map Prod.fst).filter
    (fun a => a ∈ localAgents)).toFinset

/-- `ShardedGossipLocal::incoming_missing_agents` (`agents.rs`), see
`destinationAgents` for its local `agents_within_common_arc` set. -/
def incomingMissingAgents (localAgents : Finset ℕ)
    (storeAgents : List (ℕ × ℕ)) (stores : AgentStores) (state : RoundState)
    (agents : List AgentInfoSigned) : AgentStores :=
  if localAgents = ∅ then stores
  else
    putAgentInfo stores
      (destinationAgents localAgents storeAgents state.commonArcSet) agents

/-! ## Content-addressed store buffer (`state/src/buffer/cas.rs`) -/

/-- A hashed content record, as consumed by `CasBuf::put`: the source's
`h.into_inner()` splits an `H : Hashable` into its content and hash. -/
structure HashedContent where
  content : ℕ
  hash : ℕ
  deriving DecidableEq

/-- Modelled from the spec: the underlying key-value buffer (`KvBuf`,
whose module is not among the given sources) maps keys to optional
values; observable contents are the whole map. -/
def KvBuf : Type := ℕ → Option ℕ

/-- Modelled from the spec: `KvBuf::put(k, v)` records the value `v`
under the key `k`, replacing any previous value at that key. -/
def KvBuf.put (kv : KvBuf) (k v : ℕ) : KvBuf :=
  fun k2 => if k2 = k then some v else kv k2

/-- `CasBuf::put`: split `h` into `(content, hash)` and put the content
into the underlying `KvBuf` under the hash. -/
def CasBuf.put (st : KvBuf) (h : HashedContent) : KvBuf :=
  KvBuf.put st h.hash h.content

/-- `CasBuf::get` through the underlying `KvBuf`. -/
def CasBuf.get (st : KvBuf) (hash : ℕ) : Option ℕ :=
  st hash

/-! ## Gossip loop error handling (`spawn/actor/gossip.rs`)

`gossip_loop` repeatedly calls `take_action`; a failed call is logged and
then hit with `.expect("Gossip loop has failed")`, which panics the task
spawned by `spawn_gossip_module` — nothing in the sources recreates it.
A successful iteration sleeps 10 ms and continues. -/

/-- Outcome of driving the gossip loop: `running` if every handled
iteration succeeded (the loop delays and continues), or `panicked` with
the panic message of the `.expect` once an iteration fails. -/
inductive GossipLoopOutcome where
  | running
  | panicked (msg : String)
  deriving DecidableEq

/-- `gossip_loop`, driven by the results of its successive `take_action`
calls: `Ok` iterations continue after the delay; the first `Err` panics
the task via `.expect("Gossip loop has failed")`. -/
def gossipLoopRun : List (Except String Unit) → GossipLoopOutcome
  | [] => GossipLoopOutcome.running
  | Except.ok _ :: rest => gossipLoopRun rest
  | Except.error _ :: _ => GossipLoopOutcome.panicked "Gossip loop has failed"

/-! ## Wire messages (`holochain_p2p/src/types/wire.rs`)

`WireMessage` is a tagged enum; its `encode`/`decode` delegate to the
serialization layer (`SerializedBytes`, outside the given sources), which
is modelled from the spec (§6 Wire format) as a tagged, self-describing
binary encoding; decoding returns an error value on malformed or
unexpected input instead of aborting.  Field values are opaque naturals
and the wire alphabet is `List ℕ`. -/

/-- The `WireMessage` enum of `holochain_p2p/src/types/wire.rs`, with
opaque field types embedded as naturals. -/
inductive WireMessage where
  | callRemote (zomeName fnName : ℕ) (cap : Option ℕ) (data : List ℕ)
  | publish (requestValidationReceipt : Bool) (dhtHash : ℕ)
      (ops : List (ℕ × ℕ))
  | validationReceipt (receipt : List ℕ)
  | get (dhtHash : ℕ) (options : ℕ)
  | getMeta (dhtHash : ℕ) (options : ℕ)
  | getLinks (linkKey : ℕ) (options : ℕ)
  deriving DecidableEq

/-- Length-prefixed encoding of a byte sequence field. -/
def encodeSeq (l : List ℕ) : List ℕ := l.length :: l

/-- Decode a length-prefixed sequence, returning it and the remaining
input. -/
def decodeSeq : List ℕ → Except String (List ℕ × List ℕ)
  | [] => Except.error "unexpected end of input"
  | n :: rest =>
    if n ≤ rest.length then Except.ok (rest.take n, rest.drop n)
    else Except.error "truncated sequence"

/-- Encoding of an optional field. -/
def encodeOpt : Option ℕ → List ℕ
  | none => [0]
  | some v => [1, v]

/-- Decode an optional field. -/
def decodeOpt : List ℕ → Except String (Option ℕ × List ℕ)
  | 0 :: rest => Except.ok (none, rest)
  | 1 :: v :: rest => Except.ok (some v, rest)
  | _ => Except.error "malformed option"

/-- Encoding of a boolean field. -/
def encodeBool (b : Bool) : List ℕ := [cond b 1 0]

/-- Decode a boolean field. -/
def decodeBool : List ℕ → Except String (Bool × List ℕ)
  | 0 :: rest => Except.ok (false, rest)
  | 1 :: rest => Except.ok (true, rest)
  | _ => Except.error "malformed boolean"

/-- Flat encoding of a list of pairs. -/
def encodePairsAux : List (ℕ × ℕ) → List ℕ
  | [] => []
  | p :: rest => p.1 :: p.2 :: encodePairsAux rest

/-- Decode `n` pairs from the input. -/
def decodePairsAux : ℕ → List ℕ → Except String (List (ℕ × ℕ) × List ℕ)
  | 0, rest => Except.ok ([], rest)
  | n + 1, a :: b :: rest =>
    match decodePairsAux n rest with
    | Except.ok (l, r) => Except.ok ((a, b) :: l, r)
    | Except.error e => Except.error e
  | _ + 1, _ => Except.error "truncated pair sequence"

/-- Length-prefixed encoding of a list of pairs. -/
def encodePairs (l : List (ℕ × ℕ)) : List ℕ :=
  l.length :: encodePairsAux l

/-- Decode a length-prefixed list of pairs. -/
def decodePairs : List ℕ → Except String (List (ℕ × ℕ) × List ℕ)
  | [] => Except.error "unexpected end of input"
  | n :: rest => decodePairsAux n rest

/-- `WireMessage::encode`: tag followed by the variant's fields. -/
def WireMessage.encode : WireMessage → List ℕ
  | WireMessage.callRemote z f c d => 0 :: z :: f :: (encodeOpt c ++ encodeSeq d)
  | WireMessage.publish rv h ops => 1 :: (encodeBool rv ++ h :: encodePairs ops)
  | WireMessage.validationReceipt rc => 2 :: encodeSeq rc
  | WireMessage.get h o => [3, h, o]
  | WireMessage.getMeta h o => [4, h, o]
  | WireMessage.getLinks k o => [5, k, o]

/-- `WireMessage::decode`: total on all inputs; malformed or unexpected
bytes produce an error value (the caller fails the round), never an
abort. -/
def WireMessage.decode (data : List ℕ) : Except String WireMessage :=
  match data with
  | 0 :: z :: f :: rest =>
    (match decodeOpt rest with
     | Except.ok (c, rest2) =>
       (match decodeSeq rest2 with
        | Except.ok (d, []) => Except.ok (WireMessage.callRemote z f c d)
        | Except.ok (_, _ :: _) => Except.error "trailing bytes"
        | Except.error e => Except.error e)
     | Except.error e => Except.error e)
  | 1 :: rest =>
    (match decodeBool rest with
     | Except.ok (rv, h :: rest2) =>
       (match decodePairs rest2 with
        | Except.ok (ops, []) => Except.ok (WireMessage.publish rv h ops)
        | Except.ok (_, _ :: _) => Except.error "trailing bytes"
        | Except.error e => Except.error e)
     | Except.ok (_, []) => Except.error "unexpected end of input"
     | Except.error e => Except.error e)
  | 2 :: rest =>
    (match decodeSeq rest with
     | Except.ok (rc, []) => Except.ok (WireMessage.validationReceipt rc)
     | Except.ok (_, _ :: _) => Except.error "trailing bytes"
     | Except.error e => Except.error e)
  | [3, h, o] => Except.ok (WireMessage.get h o)
  | [4, h, o] => Except.ok (WireMessage.getMeta h o)
  | [5, k, o] => Except.ok (WireMessage.getLinks k o)
  | _ => Except.error "unrecognized message tag or malformed body"

/-- C1: after two nodes with op sets A and B run one full
`process_next_gossip` round, the driver pushes to each side exactly the
set difference of the other side's op-hash set, and both sides end
holding the union; on the concrete scenario A = {1,2,3}, B = {3,4,5}
both end with exactly {1,2,3,4,5} (a `Finset`, hence duplicate-free). -/
theorem process_next_gossip_union (A B : Finset ℕ) :
    toNeeds A B = A \ B ∧ fromNeeds A B = B \ A ∧
    processNextGossip A B = (A ∪ B, A ∪ B) ∧
    processNextGossip {1, 2, 3} {3, 4, 5} =
      ({1, 2, 3, 4, 5}, {1, 2, 3, 4, 5}) := by
  refine ⟨rfl, rfl, ?_, by decide⟩
  unfold processNextGossip gossipOpsMerge fromNeeds toNeeds
  rw [Finset.union_sdiff_self_eq_union, Finset.union_sdiff_self_eq_union,
    Finset.union_comm B A]

/-- C5: storing the same content-addressed record twice is idempotent:
`put h` twice leaves the store's observable contents identical to
`put h` once. -/
theorem cas_put_idempotent (st : KvBuf) (h : HashedContent) :
    CasBuf.put (CasBuf.put st h) h = CasBuf.put st h := by
  funext k2
  unfold CasBuf.put KvBuf.put
  by_cases hk : k2 = h.hash <;> simp [hk]

/-- C6: arc intersection over the circular key space is commutative
(also for arcs wrapping the space boundary, since the statement ranges
over all arcs), it is a pure total function (a Lean `def`), and it
returns the empty set whenever the two arcs share no location. -/
theorem intersect_comm_empty (a b : DhtArc) :
    intersect a b = intersect b a ∧
    ((∀ p, a.containsLoc p = false ∨ b.containsLoc p = false) →
      intersect a b = ArcSet.empty) := by
  constructor
  · funext p
    unfold intersect
    exact Bool.and_comm _ _
  · intro h
    funext p
    unfold intersect ArcSet.empty
    rcases h p with hp | hp <;> simp [hp]

/-- Witness for C6 at concrete arcs: the zero-length arc at center 0 and
the full arc share no location, so their intersection is empty, and the
two intersection orders agree. -/
theorem intersect_comm_empty_witness :
    intersect ⟨0, 0⟩ ⟨0, keySpaceSize⟩ = intersect ⟨0, keySpaceSize⟩ ⟨0, 0⟩ ∧
    intersect ⟨0, 0⟩ ⟨0, keySpaceSize⟩ = ArcSet.empty :=
  ⟨(intersect_comm_empty _ _).1,
   (intersect_comm_empty ⟨0, 0⟩ ⟨0, keySpaceSize⟩).2
     (fun p => Or.inl (by simp [DhtArc.containsLoc]))⟩

@[simp]
theorem decodeOpt_encodeOpt (c : Option ℕ) (r : List ℕ) :
    decodeOpt (encodeOpt c ++ r) = Except.ok (c, r) := by
  cases c <;> rfl

@[simp]
theorem decodeBool_encodeBool (b : Bool) (r : List ℕ) :
    decodeBool (encodeBool b ++ r) = Except.ok (b, r) := by
  cases b <;> rfl

@[simp]
theorem decodeSeq_encodeSeq (l : List ℕ) :
    decodeSeq (encodeSeq l) = Except.ok (l, []) := by
  simp [encodeSeq, decodeSeq]

@[simp]
theorem decodePairsAux_encodePairsAux (l : List (ℕ × ℕ)) (r : List ℕ) :
    decodePairsAux l.length (encodePairsAux l ++ r) = Except.ok (l, r) := by
  induction l with
  | nil => rfl
  | cons p t ih => simp [encodePairsAux, decodePairsAux, ih]

@[simp]
theorem decodePairs_encodePairs (l : List (ℕ × ℕ)) :
    decodePairs (encodePairs l) = Except.ok (l, []) := by
  have h := decodePairsAux_encodePairsAux l []
  simpa [encodePairs, decodePairs] using h

/-- C8: wire message decoding is a total function into a result type
whose error case flags malformed input (here, an unrecognized tag and a
truncated body) without aborting, and the bytes produced by
`WireMessage.encode` decode back to the original tagged variant. -/
theorem wire_message_decode_encode :
    (∀ m : WireMessage, WireMessage.decode (WireMessage.encode m) =
      Except.ok m) ∧
    WireMessage.decode [] =
      Except.error "unrecognized message tag or malformed body" ∧
    WireMessage.decode [99, 0] =
      Except.error "unrecognized message tag or malformed body" ∧
    WireMessage.decode [3] =
      Except.error "unrecognized message tag or malformed body" := by
  refine ⟨?_, rfl, rfl, rfl⟩
  intro m
  cases m <;> simp [WireMessage.encode, WireMessage.decode]

/-- C7 counterexample: when `take_action` fails (for instance because the
storage collaborator is unavailable), the gossip loop does not back off
and keep running — it panics with "Gossip loop has failed" and the task
terminates. -/
theorem gossip_loop_error_counterexample :
    gossipLoopRun [Except.error "storage collaborator unavailable"] =
      GossipLoopOutcome.panicked "Gossip loop has failed" ∧
    gossipLoopRun [Except.error "storage collaborator unavailable"] ≠
      GossipLoopOutcome.running := by
  exact ⟨rfl, by simp [gossipLoopRun]⟩

/-- C7 amended: a failed `take_action` makes the gossip loop panic with
"Gossip loop has failed", terminating the gossip task (it is not
recreated); the loop keeps running precisely when every handled
`take_action` call succeeded. -/
theorem gossip_loop_panics_on_error (results : List (Except String Unit)) :
    (∀ e rest, gossipLoopRun (Except.error e :: rest) =
      GossipLoopOutcome.panicked "Gossip loop has failed") ∧
    (gossipLoopRun results = GossipLoopOutcome.running ↔
      ∀ r ∈ results, ∃ u, r = Except.ok u) := by
  refine ⟨fun e rest => rfl, ?_⟩
  induction results with
  | nil => simp [gossipLoopRun]
  | cons r rest ih =>
    cases r with
    | ok u => simpa [gossipLoopRun] using ih
    | error e => simp [gossipLoopRun]

/-- Witness for C7's amended theorem: a loop whose two iterations both
succeed is still running. -/
theorem gossip_loop_panics_on_error_witness :
    gossipLoopRun [Except.ok (), Except.ok ()] = GossipLoopOutcome.running :=
  (gossip_loop_panics_on_error [Except.ok (), Except.ok ()]).2.mpr
    (by intro r hr; simp at hr; simp [hr])

theorem filter_beq_filter_bne (m : List (ℕ × RoundState)) (cert : ℕ) :
    (m.filter (fun e => e.1 != cert)).filter (fun e => e.1 == cert) = [] := by
  induction m with
  | nil => rfl
  | cons e t ih =>
    by_cases h : e.1 = cert <;> simp [List.filter_cons, h, ih]

theorem filter_beq_of_ne (m : List (ℕ × RoundState)) (c cert : ℕ)
    (h : c ≠ cert) :
    (m.filter (fun e => e.1 != cert)).filter (fun e => e.1 == c) =
      m.filter (fun e => e.1 == c) := by
  induction m with
  | nil => rfl
  | cons e t ih =>
    by_cases he : e.1 = cert
    · have : e.1 ≠ c := by rw [he]; exact Ne.symm h
      simp [List.filter_cons, he, this, Ne.symm h, ih]
    · by_cases hec : e.1 = c <;>
        simp [List.filter_cons, he, hec, h, Ne.symm h, ih]

theorem find?_beq_filter_bne (m : List (ℕ × RoundState)) (c cert : ℕ)
    (h : c ≠ cert) :
    (m.filter (fun e => e.1 != cert)).find? (fun e => e.1 == c) =
      m.find? (fun e => e.1 == c) := by
  induction m with
  | nil => rfl
  | cons e t ih =>
    by_cases he : e.1 = cert
    · have : e.1 ≠ c := by rw [he]; exact Ne.symm h
      simp [List.filter_cons, he, List.find?_cons, this, Ne.symm h, ih]
    · by_cases hec : e.1 = c <;>
        simp [List.filter_cons, he, hec, List.find?_cons, h, Ne.symm h, ih]

theorem lookupRound_insertRound_self (m : List (ℕ × RoundState)) (cert : ℕ)
    (s : RoundState) : lookupRound (insertRound m cert s) cert = some s := by
  simp [lookupRound, insertRound, List.find?_cons]

theorem lookupRound_insertRound_ne (m : List (ℕ × RoundState)) (c cert : ℕ)
    (s : RoundState) (h : c ≠ cert) :
    lookupRound (insertRound m cert s) c = lookupRound m c := by
  unfold lookupRound insertRound
  rw [List.find?_cons_of_neg, find?_beq_filter_bne m c cert h]
  simp [Ne.symm h]

theorem certCount_insertRound (m : List (ℕ × RoundState)) (cert : ℕ)
    (s : RoundState) (c : ℕ) :
    certCount (insertRound m cert s) c = if c = cert then 1 else certCount m c := by
  unfold certCount insertRound
  by_cases h : c = cert
  · subst h
    simp [List.filter_cons, filter_beq_filter_bne]
  · simp [List.filter_cons, Ne.symm h, filter_beq_of_ne m c cert h, h]

theorem applyAccepts_cons (init : ShardedGossipState)
    (e : ℕ × RoundState × List ℕ) (t : List (ℕ × RoundState × List ℕ)) :
    applyAccepts init (e :: t) = applyAccepts (incomingAccept init e.1 e.2) t :=
  rfl

theorem certCount_incomingAccept_le (st : ShardedGossipState) (cert2 : ℕ)
    (gen : RoundState × List ℕ) (cert : ℕ)
    (h : certCount st.stateMap cert ≤ 1) :
    certCount (incomingAccept st cert2 gen).stateMap cert ≤ 1 := by
  unfold incomingAccept
  split
  · exact h
  · show certCount (insertRound st.stateMap cert2 gen.1) cert ≤ 1
    rw [certCount_insertRound]
    split
    · exact le_refl 1
    · exact h

theorem certCount_applyAccepts_le (events : List (ℕ × RoundState × List ℕ))
    (cert : ℕ) :
    ∀ init : ShardedGossipState, certCount init.stateMap cert ≤ 1 →
      certCount (applyAccepts init events).stateMap cert ≤ 1 := by
  induction events with
  | nil => exact fun init h => h
  | cons e t ih =>
    intro init h
    rw [applyAccepts_cons]
    exact ih _ (certCount_incomingAccept_le init e.1 e.2 cert h)

/-- C2 counterexample: a node with local agent 7 has a live round for
peer certificate 5 with `started_at = 100`; an Accept for the same
certificate generating a round with the older `started_at = 50` is
handled.  The claim requires the newcomer to be rejected (the live
round, timestamp 100, stays) or to supersede by timestamp comparison
(only possible when 100 ≤ 50); the code does neither — it keeps the
older-stamped newcomer unconditionally. -/
theorem incoming_accept_no_timestamp_comparison :
    ¬(((lookupRound (incomingAccept
          ⟨{7}, [(5, ⟨ArcSet.empty, 100⟩)], []⟩ 5
          (⟨ArcSet.empty, 50⟩, [])).stateMap 5).map RoundState.startedAt =
        some 100) ∨ (100 : ℕ) ≤ 50) := by
  decide

/-- C2 amended: the per-space state map holds at most one live
`RoundState` per peer certificate across every sequence of handled
Accept events (the map is keyed by certificate and `insert` replaces),
and a new Accept for a peer supersedes any existing round
unconditionally — with no timestamp comparison and no rejection. -/
theorem round_state_single_ownership (init : ShardedGossipState)
    (events : List (ℕ × RoundState × List ℕ)) (cert : ℕ)
    (hinit : certCount init.stateMap cert ≤ 1) :
    certCount (applyAccepts init events).stateMap cert ≤ 1 ∧
    (∀ st2 : ShardedGossipState, ∀ gen : RoundState × List ℕ,
      st2.localAgents ≠ ∅ →
      lookupRound (incomingAccept st2 cert gen).stateMap cert = some gen.1) := by
  refine ⟨certCount_applyAccepts_le events cert init hinit, ?_⟩
  intro st2 gen h2
  unfold incomingAccept
  split
  · exact absurd (by assumption) h2
  · exact lookupRound_insertRound_self _ _ _

/-- Witness for C2's amended theorem at a concrete initial state and a
two-accept event sequence. -/
theorem round_state_single_ownership_witness :
    certCount (applyAccepts ⟨{7}, [(5, ⟨ArcSet.empty, 100⟩)], []⟩
        [(5, ⟨ArcSet.empty, 50⟩, []), (6, ⟨ArcSet.empty, 60⟩, [])]).stateMap
        5 ≤ 1 ∧
    lookupRound (incomingAccept ⟨{7}, [], []⟩ 5
        (⟨ArcSet.empty, 1⟩, [])).stateMap 5 = some ⟨ArcSet.empty, 1⟩ := by
  have h := round_state_single_ownership
    ⟨{7}, [(5, ⟨ArcSet.empty, 100⟩)], []⟩
    [(5, ⟨ArcSet.empty, 50⟩, []), (6, ⟨ArcSet.empty, 60⟩, [])] 5 (by decide)
  exact ⟨h.1, h.2 ⟨{7}, [], []⟩ (⟨ArcSet.empty, 1⟩, []) (by decide)⟩

/-- C4 counterexample: a node with local agent 3 has a live round for
peer certificate 9 with `started_at = 200`; a concurrent-initiate Accept
generating a round with the earlier `started_at = 10` is handled.  The
claim keeps the round with the later `started_at` (200); the code keeps
the round with `started_at = 10`. -/
theorem incoming_accept_no_tie_break :
    ((lookupRound (incomingAccept ⟨{3}, [(9, ⟨ArcSet.empty, 200⟩)], []⟩ 9
        (⟨ArcSet.empty, 10⟩, [])).stateMap 9).map RoundState.startedAt ≠
      some 200) ∧
    ((lookupRound (incomingAccept ⟨{3}, [(9, ⟨ArcSet.empty, 200⟩)], []⟩ 9
        (⟨ArcSet.empty, 10⟩, [])).stateMap 9).map RoundState.startedAt =
      some 10) := by
  decide

/-- C4 amended: when a node already has a live round for a peer
certificate and handles an Accept for that certificate, the round of the
most recently handled Accept survives as the single round for that
certificate, unconditionally — regardless of the two rounds'
`started_at` timestamps or agent identifiers — and rounds of other
certificates are untouched. -/
theorem incoming_accept_last_write_wins (st : ShardedGossipState)
    (cert : ℕ) (old : RoundState) (gen : RoundState × List ℕ)
    (hlocal : st.localAgents ≠ ∅)
    (_hlive : lookupRound st.stateMap cert = some old) :
    lookupRound (incomingAccept st cert gen).stateMap cert = some gen.1 ∧
    ∀ c, c ≠ cert →
      lookupRound (incomingAccept st cert gen).stateMap c =
        lookupRound st.stateMap c := by
  unfold incomingAccept
  split
  · exact absurd (by assumption) hlocal
  · exact ⟨lookupRound_insertRound_self _ _ _,
      fun c hc => lookupRound_insertRound_ne _ _ _ _ hc⟩

/-- Witness for C4's amended theorem: the live round (timestamp 200) for
certificate 9 is replaced by the newly accepted round (timestamp 10). -/
theorem incoming_accept_last_write_wins_witness :
    lookupRound (incomingAccept ⟨{3}, [(9, ⟨ArcSet.empty, 200⟩)], []⟩ 9
        (⟨ArcSet.empty, 10⟩, [])).stateMap 9 = some ⟨ArcSet.empty, 10⟩ ∧
    lookupRound (incomingAccept ⟨{3}, [(9, ⟨ArcSet.empty, 200⟩)], []⟩ 9
        (⟨ArcSet.empty, 10⟩, [])).stateMap 4 =
      lookupRound [(9, (⟨ArcSet.empty, 200⟩ : RoundState))] 4 := by
  have h := incoming_accept_last_write_wins
    ⟨{3}, [(9, ⟨ArcSet.empty, 200⟩)], []⟩ 9 ⟨ArcSet.empty, 200⟩
    (⟨ArcSet.empty, 10⟩, []) (by decide) rfl
  exact ⟨h.1, h.2 4 (by decide)⟩

/-- C9: an `incoming_accept` on a node with no local agents succeeds as
a silent no-op: the whole state — state map and outgoing queue
included — is unchanged. -/
theorem incoming_accept_no_local_agents (st : ShardedGossipState)
    (cert : ℕ) (gen : RoundState × List ℕ) (h : st.localAgents = ∅) :
    incomingAccept st cert gen = st := by
  simp [incomingAccept, h]

/-- Witness for C9 at a concrete agentless state with pending gossip to
queue: nothing changes. -/
theorem incoming_accept_no_local_agents_witness :
    incomingAccept ⟨∅, [], []⟩ 1 (⟨ArcSet.empty, 0⟩, [2]) =
      (⟨∅, [], []⟩ : ShardedGossipState) :=
  incoming_accept_no_local_agents ⟨∅, [], []⟩ 1 (⟨ArcSet.empty, 0⟩, [2]) rfl

theorem mem_missingAgentsOf (infos : List AgentInfoSigned) (arcSet : ArcSet)
    (bloom : BloomFilter) (info : AgentInfoSigned) :
    info ∈ missingAgentsOf infos arcSet bloom ↔
      info ∈ infos ∧ ArcSet.containsLoc arcSet info.loc = true ∧
        BloomFilter.check bloom
          (MetaOpKey.agent info.agent info.signedAtMs) = false := by
  simp only [missingAgentsOf, agentInfoWithinArcSet, List.mem_filter,
    Bool.not_eq_true', and_assoc]

theorem sentMissingAgents_incomingAgents (localAgents : Finset ℕ)
    (infos : List AgentInfoSigned) (state : RoundState)
    (bloom : BloomFilter) (h : localAgents ≠ ∅) :
    sentMissingAgents (incomingAgents localAgents infos state bloom) =
      missingAgentsOf infos state.commonArcSet bloom := by
  unfold incomingAgents
  rw [if_neg h]
  by_cases hm : (missingAgentsOf infos state.commonArcSet bloom).isEmpty
  · rw [if_pos hm]
    rw [List.isEmpty_iff] at hm
    simp [sentMissingAgents, hm]
  · rw [if_neg hm]
    simp [sentMissingAgents]

/-- C3: on receiving a peer's agent bloom filter, the reply's
`MissingAgents` payload holds exactly the local agent-info entries
within the round's common arc set that the filter reports absent on the
peer's side; with no local agents the reply is `NoAgents`. -/
theorem incoming_agents_exact (localAgents : Finset ℕ)
    (infos : List AgentInfoSigned) (state : RoundState)
    (bloom : BloomFilter) :
    (localAgents = ∅ →
      incomingAgents localAgents infos state bloom =
        [ShardedGossipWire.noAgents]) ∧
    (localAgents ≠ ∅ → ∀ info,
      info ∈ sentMissingAgents (incomingAgents localAgents infos state bloom) ↔
        info ∈ infos ∧
        ArcSet.containsLoc state.commonArcSet info.loc = true ∧
        BloomFilter.check bloom
          (MetaOpKey.agent info.agent info.signedAtMs) = false) := by
  constructor
  · intro h
    simp [incomingAgents, h]
  · intro h info
    rw [sentMissingAgents_incomingAgents localAgents infos state bloom h,
      mem_missingAgentsOf]

/-- Witness for C3 at concrete inputs: an agentless node replies
`NoAgents`; a node with local agent 1 and one stored info (agent 4,
signed at 5, basis 6) inside a full common arc, against a bloom that
reports everything absent, includes that info in `MissingAgents`. -/
theorem incoming_agents_exact_witness :
    incomingAgents ∅ [] ⟨ArcSet.empty, 0⟩ (fun _ => false) =
      [ShardedGossipWire.noAgents] ∧
    (⟨4, 5, 6⟩ : AgentInfoSigned) ∈ sentMissingAgents
      (incomingAgents {1} [⟨4, 5, 6⟩] ⟨fun _ => true, 0⟩ (fun _ => false)) := by
  constructor
  · exact (incoming_agents_exact ∅ [] ⟨ArcSet.empty, 0⟩ (fun _ => false)).1 rfl
  · exact ((incoming_agents_exact {1} [⟨4, 5, 6⟩] ⟨fun _ => true, 0⟩
      (fun _ => false)).2 (by decide) ⟨4, 5, 6⟩).mpr ⟨by simp, rfl, rfl⟩

/-- C10: `incoming_missing_agents` can change the peer store of an agent
only if that agent is a member of the node's `local_agents` and is
reported within the round's common arc set; received agent infos are
never stored for non-local agents or for local agents outside the common
arc set. -/
theorem incoming_missing_agents_frame (localAgents : Finset ℕ)
    (storeAgents : List (ℕ × ℕ)) (stores : AgentStores) (state : RoundState)
    (agents : List AgentInfoSigned) (a : ℕ)
    (hch : incomingMissingAgents localAgents storeAgents stores state agents a ≠
      stores a) :
    a ∈ localAgents ∧ ∃ loc, (a, loc) ∈ storeAgents ∧
      ArcSet.containsLoc state.commonArcSet loc = true := by
  unfold incomingMissingAgents at hch
  by_cases hla : localAgents = ∅
  · rw [if_pos hla] at hch
    exact absurd rfl hch
  · rw [if_neg hla] at hch
    unfold putAgentInfo at hch
    by_cases hd : a ∈ destinationAgents localAgents storeAgents
        state.commonArcSet
    · unfold destinationAgents agentsWithinArcset at hd
      rw [List.mem_toFinset, List.mem_filter] at hd
      obtain ⟨hmap, hmem⟩ := hd
      rw [List.mem_map] at hmap
      obtain ⟨⟨a1, loc⟩, hfil, rfl⟩ := hmap
      rw [List.mem_filter] at hfil
      exact ⟨by simpa using hmem, loc, hfil.1, hfil.2⟩
    · rw [if_neg hd] at hch
      exact absurd rfl hch

/-- Witness for C10 at concrete inputs: local agent 2 at basis 30 inside
a full common arc receives one agent info; its (previously empty) peer
store changes, and the theorem places it among the local in-arc
destinations. -/
theorem incoming_missing_agents_frame_witness :
    (2 : ℕ) ∈ ({2} : Finset ℕ) ∧ ∃ loc, ((2 : ℕ), loc) ∈
        [((2 : ℕ), (30 : ℕ))] ∧
      ArcSet.containsLoc (fun _ => true) loc = true :=
  incoming_missing_agents_frame {2} [(2, 30)] (fun _ => []) ⟨fun _ => true, 0⟩
    [⟨4, 5, 6⟩] 2 (by decide)

end Holochain
